import Mathlib

/-!
Verification development for the user_events tracing subsystem
(kernel/trace/trace_events_user.c).

The file shallow-embeds the parsing, registry, emission and validation
logic of the source as executable Lean functions, then proves theorems
checking the specification's claims about them.  Machine integers are
modelled as `Nat`/`Int` with explicit wrapping where the source relies
on it; fallible C code is modelled with `Except Int`/result sums whose
`Int` payload is the (negated) errno value; external kernel services
the source calls (allocation, the trace-event visibility layer, page
access) are modelled by explicit oracle records so that every control
path of the source is representable.
-/

namespace UserEvents

/-! ## errno codes used by the source (positive here; the code returns
their negations). -/

def ENOENT : Int := 2
def E2BIG : Int := 7
def ENOMEM : Int := 12
def EFAULT : Int := 14
def EBUSY : Int := 16
def ENODEV : Int := 19
def EINVAL : Int := 22
def EMFILE : Int := 24
def ERANGE : Int := 34

/-- sizeof(struct trace_entry): the fixed record header that precedes the
user payload in every sink record (type u16, flags u8, preempt_count u8,
pid s32 = 8 bytes). -/
def sizeofTraceEntry : Nat := 8

/-- MAX_FIELD_ARRAY_SIZE from the source. -/
def MAX_FIELD_ARRAY_SIZE : Nat := 1024

/-! ## Validators (struct user_event_validator)

The source stores an `offset` and a `flags` word with two bits,
VALIDATOR_ENSURE_NULL (bit 0) and VALIDATOR_REL (bit 1); the two bits
are modelled as the two Booleans below. -/

structure UserValidator where
  offset : Nat
  /-- VALIDATOR_ENSURE_NULL flag bit -/
  ensureNull : Bool
  /-- VALIDATOR_REL flag bit -/
  rel : Bool
deriving Repr, DecidableEq

/-- Read one byte of a sink record.  Positions outside `data` — which the
C code would read out of bounds — are supplied by the `junk` environment,
so theorems quantifying over `junk` hold whatever memory happens to sit
around the record.  Bytes are normalised to 0..255. -/
def byteAt (data : List Nat) (junk : Int → Nat) (i : Int) : Nat :=
  (if 0 ≤ i ∧ i < (data.length : Int) then data.getD i.toNat 0 else junk i) % 256

/-- Little-endian 16-bit read, as the low/high halves of the `u32` locator
read `loc = *(u32 *)pos` are the two byte pairs at `p` and `p + 2`. -/
def read16 (data : List Nat) (junk : Int → Nat) (p : Int) : Nat :=
  byteAt data junk p + 256 * byteAt data junk (p + 1)

/-- The end position computed by `user_event_validate` for one validator:
`offset = loc & 0xffff`, `size = loc >> 16`, then
`pos += offset + sizeof(loc)` for VALIDATOR_REL or `pos = data + offset`
otherwise, and finally `pos += size`. -/
def validatorEnd (data : List Nat) (junk : Int → Nat) (v : UserValidator) : Int :=
  let off : Int := read16 data junk v.offset
  let sz : Int := read16 data junk (v.offset + 2)
  if v.rel then (v.offset : Int) + off + 4 + sz else off + sz

/-- Whether one validator rejects the record: computed end past the end of
the record, or — when null-termination is demanded — a non-null byte just
before the computed end. -/
def validatorFails (data : List Nat) (junk : Int → Nat) (v : UserValidator) : Bool :=
  let e := validatorEnd data junk v
  if e > (data.length : Int) then true
  else if v.ensureNull then byteAt data junk (e - 1) != 0
  else false

/-- user_event_validate: walks the validator list in order and returns 0,
or -EFAULT at the first validator that rejects the record. -/
def user_event_validate (data : List Nat) (junk : Int → Nat) :
    List UserValidator → Int
  | [] => 0
  | v :: vs =>
    if validatorFails data junk v then -EFAULT
    else user_event_validate data junk vs

/-! ## C string helpers

C strings are modelled as `List Char`.  `strsep`/`strpbrk` write NUL
bytes to split a buffer; here the splits return the pieces directly. -/

def strL (s : String) : List Char := s.toList

/-- isspace -/
def isSpaceC (ch : Char) : Bool :=
  ch = ' ' ∨ ch = '\t' ∨ ch = '\n' ∨ ch = Char.ofNat 11 ∨
    ch = Char.ofNat 12 ∨ ch = '\r'

/-- skip_spaces -/
def skipSpaces (s : List Char) : List Char := s.dropWhile isSpaceC

/-- strpbrk(s, " ") followed by `*field++ = '\0'`: the part before the
first space and the part after it, or none when there is no space. -/
def splitFirstSpace : List Char → Option (List Char × List Char)
  | [] => none
  | ch :: cs =>
    if ch = ' ' then some ([], cs)
    else
      match splitFirstSpace cs with
      | none => none
      | some (a, b) => some (ch :: a, b)

/-- Repeated strsep on one separator; consecutive separators produce empty
parts and an empty input produces one empty part, as strsep does. -/
def splitOnChar (sep : Char) : List Char → List (List Char)
  | [] => [[]]
  | ch :: cs =>
    match splitOnChar sep cs with
    | [] => [[]]
    | t :: ts => if ch = sep then [] :: t :: ts else (ch :: t) :: ts

/-- strstr(hay, needle) != NULL -/
def hasSub (needle : List Char) (hay : List Char) : Bool :=
  match hay with
  | [] => needle.isEmpty
  | _ :: t => needle.isPrefixOf hay || hasSub needle t

/-! ## kstrto* integer parsing (lib/kstrtox.c) -/

def U64_MAX : Nat := 2 ^ 64 - 1
def UINT_MAX : Nat := 2 ^ 32 - 1

def isDigitC (ch : Char) : Bool := '0' ≤ ch ∧ ch ≤ '9'

/-- isxdigit -/
def isHexC (ch : Char) : Bool :=
  isDigitC ch ∨ ('a' ≤ ch ∧ ch ≤ 'f') ∨ ('A' ≤ ch ∧ ch ≤ 'F')

def hexVal (ch : Char) : Nat :=
  if isDigitC ch then ch.toNat - '0'.toNat
  else if 'a' ≤ ch ∧ ch ≤ 'f' then ch.toNat - 'a'.toNat + 10
  else ch.toNat - 'A'.toNat + 10

/-- tolower for ASCII -/
def lowerC (ch : Char) : Char :=
  if 'A' ≤ ch ∧ ch ≤ 'Z' then Char.ofNat (ch.toNat + 32) else ch

/-- _parse_integer_fixup_radix: resolve base 0 into 8/10/16 and strip an
0x prefix for base 16. -/
def fixupRadix (s : List Char) (base : Nat) : List Char × Nat :=
  if base = 0 then
    match s with
    | '0' :: c1 :: c2 :: r =>
      if lowerC c1 = 'x' ∧ isHexC c2 then (c2 :: r, 16) else ('0' :: c1 :: c2 :: r, 8)
    | '0' :: r => ('0' :: r, 8)
    | s => (s, 10)
  else if base = 16 then
    match s with
    | '0' :: c1 :: r => if lowerC c1 = 'x' then (r, 16) else ('0' :: c1 :: r, 16)
    | s => (s, 16)
  else (s, base)

/-- _parse_integer: the count of digit characters consumed and the
accumulated value.  The value is unbounded here; the kernel's sticky
overflow flag is equivalent to the final value exceeding U64_MAX because
the accumulator only grows. -/
def parseDigitsAux (base : Nat) (acc : Nat) (n : Nat) : List Char → Nat × Nat
  | [] => (n, acc)
  | ch :: cs =>
    if isHexC ch ∧ hexVal ch < base then
      parseDigitsAux base (acc * base + hexVal ch) (n + 1) cs
    else (n, acc)

/-- kstrtoull (with its leading '+' skip and trailing '\n' allowance). -/
def kstrtoull (s : List Char) (base : Nat) : Except Int Nat :=
  let s1 := match s with | '+' :: r => r | _ => s
  let sb := fixupRadix s1 base
  let nv := parseDigitsAux sb.2 0 0 sb.1
  if nv.2 > U64_MAX then .error (-ERANGE)
  else if nv.1 = 0 then .error (-EINVAL)
  else
    let rest := sb.1.drop nv.1
    let rest2 := match rest with | '\n' :: r => r | _ => rest
    if rest2 ≠ [] then .error (-EINVAL) else .ok nv.2

/-- kstrtouint: kstrtoull plus a UINT_MAX range check. -/
def kstrtouint (s : List Char) (base : Nat) : Except Int Nat :=
  match kstrtoull s base with
  | .error e => .error e
  | .ok v => if v > UINT_MAX then .error (-ERANGE) else .ok v

/-- kstrtou32 is kstrtouint. -/
def kstrtou32 (s : List Char) (base : Nat) : Except Int Nat := kstrtouint s base

/-! ## Field parsing -/

/-- strchr(type, '['): the part after the first '['. -/
def afterFirstLBracket : List Char → Option (List Char)
  | [] => none
  | ch :: cs => if ch = '[' then some cs else afterFirstLBracket cs

/-- strchr(val, ']'): the part before the first ']'. -/
def beforeFirstRBracket : List Char → Option (List Char)
  | [] => none
  | ch :: cs =>
    if ch = ']' then some []
    else (beforeFirstRBracket cs).map (fun t => ch :: t)

/-- user_field_array_size: parse the bracketed element count.  The copy
into `char val[8]` via strscpy fails (result <= 0) when the text after
the '[' is empty or longer than 7 characters; the count is parsed by
kstrtouint with base 0 and must not exceed MAX_FIELD_ARRAY_SIZE. -/
def user_field_array_size (type : List Char) : Int :=
  match afterFirstLBracket type with
  | none => -EINVAL
  | some tail =>
    if tail.length = 0 ∨ tail.length > 7 then -EINVAL
    else
      match beforeFirstRBracket tail with
      | none => -EINVAL
      | some val =>
        match kstrtouint val 0 with
        | .error _ => -EINVAL
        | .ok size => if size > MAX_FIELD_ARRAY_SIZE then -EINVAL else (size : Int)

/-- user_field_size: size in bytes of a field type, negative errno for an
unknown type. -/
def user_field_size (type : List Char) : Int :=
  if type = strL "s64" then 8
  else if type = strL "u64" then 8
  else if type = strL "s32" then 4
  else if type = strL "u32" then 4
  else if type = strL "int" then 4
  else if type = strL "unsigned int" then 4
  else if type = strL "s16" then 2
  else if type = strL "u16" then 2
  else if type = strL "short" then 2
  else if type = strL "unsigned short" then 2
  else if type = strL "s8" then 1
  else if type = strL "u8" then 1
  else if type = strL "char" then 1
  else if type = strL "unsigned char" then 1
  else if (strL "char[").isPrefixOf type then user_field_array_size type
  else if (strL "unsigned char[").isPrefixOf type then user_field_array_size type
  else if (strL "__data_loc ").isPrefixOf type then 4
  else if (strL "__rel_loc ").isPrefixOf type then 4
  else -EINVAL

/-! ## Fields and events -/

/-- One parsed field (the members of struct ftrace_event_field that
user_event_add_field fills in). -/
structure ParsedField where
  type : List Char
  name : List Char
  offset : Nat
  size : Nat
  is_signed : Bool
deriving Repr, DecidableEq

/-- struct user_event: the registry-visible state of one event.  `enabled`
models `atomic_read(&tp->key.enabled) > 0` (a probe is attached). -/
structure UserEvent where
  name : List Char
  /-- user->fields; list_add puts the newest field first, as in the source. -/
  fields : List ParsedField
  /-- user->validators; list_add_tail keeps parse order. -/
  validators : List UserValidator
  min_size : Int
  refcnt : Nat
  enabled : Bool
deriving Repr, DecidableEq

/-- user_event_add_field: append a validator for the indirect wrapper
types (__data_loc/__rel_loc, null-terminated when the underlying type
contains "char"), push the field, and update min_size to
(offset + size) - sizeof(struct trace_entry).  Its kmalloc failure paths
(-ENOMEM) are not claim-relevant and are modelled as succeeding
allocations; allocation failure of the event itself is in RegOracle. -/
def user_event_add_field (user : UserEvent) (type name : List Char)
    (offset size : Nat) (is_signed : Bool) : UserEvent :=
  let isData := (strL "__data_loc ").isPrefixOf type
  let isRel := (strL "__rel_loc ").isPrefixOf type
  let user1 :=
    if isData ∨ isRel then
      { user with validators :=
          user.validators ++ [⟨offset, hasSub (strL "char") type, isRel⟩] }
    else user
  { user1 with
    fields := ⟨type, name, offset, size, is_signed⟩ :: user1.fields,
    min_size := (offset : Int) + size - sizeofTraceEntry }

/-- Stores a u32 into the C `int size` of user_event_parse_field. -/
def toInt32 (v : Nat) : Int :=
  if v < 2 ^ 31 then (v : Int) else (v : Int) - 2 ^ 32

/-- The `while ((part = strsep(&field, " ")))` loop of
user_event_parse_field with its depth counter: depth 0 takes the type,
depth 1 the name, depth 2 an explicit size (structs only), anything
further is -EINVAL. -/
def parseFieldParts : List (List Char) → Nat → Bool → List Char →
    Option (List Char) → Int →
    Except Int (List Char × Option (List Char) × Int × Nat)
  | [], depth, _, type, name, size => .ok (type, name, size, depth)
  | p :: ps, depth, is_struct, type, name, size =>
    match depth with
    | 0 => parseFieldParts ps 1 is_struct p name size
    | 1 => parseFieldParts ps 2 is_struct type (some p) size
    | 2 =>
      if ¬ is_struct then .error (-EINVAL)
      else
        match kstrtou32 p 10 with
        | .error _ => .error (-EINVAL)
        | .ok v => parseFieldParts ps 3 is_struct type name (toInt32 v)
    | _ => .error (-EINVAL)

/-- The tail of user_event_parse_field after the prefix handling: run the
part loop, then the depth/name/size checks, yielding the (type, name,
size) triple the field would be added with. -/
def finishSpec (is_struct : Bool) (type0 : List Char)
    (parts : List (List Char)) (depth0 : Nat) :
    Except Int (List Char × List Char × Int) :=
  match parseFieldParts parts depth0 is_struct type0 none (-EINVAL) with
  | .error e => .error e
  | .ok (type, oname, size0, depth) =>
    if depth < 2 ∨ oname = none then .error (-EINVAL)
    else
      let size := if depth = 2 then user_field_size type else size0
      if size = 0 then .error (-EINVAL)
      else if size < 0 then .error size
      else .ok (type, oname.getD [], size)

/-- The decision part of user_event_parse_field, which depends only on the
field text: skip leading spaces (an all-blank field parses as a no-op,
ok none), split off the two-word and indirect type prefixes at the space
that follows them (missing space is -EINVAL), then run the part loop. -/
def fieldSpecOf (field : List Char) :
    Except Int (Option (List Char × List Char × Int)) :=
  let f := skipSpaces field
  if f = [] then .ok none
  else
    let pfx :=
      if (strL "unsigned ").isPrefixOf f then some (9, false)
      else if (strL "struct ").isPrefixOf f then some (7, true)
      else if (strL "__data_loc unsigned ").isPrefixOf f then some (20, false)
      else if (strL "__data_loc ").isPrefixOf f then some (11, false)
      else if (strL "__rel_loc unsigned ").isPrefixOf f then some (19, false)
      else if (strL "__rel_loc ").isPrefixOf f then some (10, false)
      else none
    match pfx with
    | some (len, is_struct) =>
      match splitFirstSpace (f.drop len) with
      | none => .error (-EINVAL)
      | some (tail, rest) =>
        (finishSpec is_struct (f.take len ++ tail) (splitOnChar ' ' rest) 1).map some
    | none => (finishSpec false [] (splitOnChar ' ' f) 0).map some

/-- user_event_parse_field: decide the (type, name, size) of the field
text, then add the field at the running offset and advance it (the C
`type[0] != 'u'` signedness test reads the NUL terminator on an empty
type). -/
def user_event_parse_field (field : List Char) (user : UserEvent)
    (offset : Nat) : Except Int (UserEvent × Nat) :=
  match fieldSpecOf field with
  | .error e => .error e
  | .ok none => .ok (user, offset)
  | .ok (some (type, name, size)) =>
    .ok (user_event_add_field user type name offset size.toNat
          (type.headD (Char.ofNat 0) ≠ 'u'), offset + size.toNat)

/-- The strsep(&args, ";") loop of user_event_parse_fields. -/
def parseFieldList : List (List Char) → UserEvent → Nat → Except Int UserEvent
  | [], user, _ => .ok user
  | f :: fs, user, offset =>
    match user_event_parse_field f user offset with
    | .error e => .error e
    | .ok (user', off') => parseFieldList fs user' off'

/-- user_event_parse_fields: NULL args parse as no fields; otherwise the
field list is split on ';' and parsed left to right starting at offset
sizeof(struct trace_entry), stopping at the first error. -/
def user_event_parse_fields (user : UserEvent) (args : Option (List Char)) :
    Except Int UserEvent :=
  match args with
  | none => .ok user
  | some s => parseFieldList (splitOnChar ';' s) user sizeofTraceEntry

/-! ## The ftrace sink probe (user_event_ftrace) -/

/-- Outcome of one sink probe invocation. -/
inductive SinkOutcome
  | notEnabled
  | reserveFailed
  | discarded
  | committed
deriving Repr, DecidableEq

/-- Environment for one user_event_ftrace call: whether the trace file is
present/enabled/not soft-disabled, whether trace_event_buffer_reserve
succeeds, whether copy_nofault succeeds, the header bytes the reserve
step fills in, and the out-of-bounds byte environment. -/
structure FtraceCtx where
  fileEnabled : Bool
  reserveOk : Bool
  copyOk : Bool
  hdr : List Nat
  junk : Int → Nat

/-- user_event_ftrace: reserve a record of sizeof(trace_entry) + count
bytes, copy the payload behind the header, run the validators on the
whole record, and commit only if everything passed; any copy or
validation failure discards the reserved record. -/
def user_event_ftrace (user : UserEvent) (payload : List Nat) (c : FtraceCtx) :
    SinkOutcome :=
  if ¬ c.fileEnabled then .notEnabled
  else if ¬ c.reserveOk then .reserveFailed
  else if ¬ c.copyOk then .discarded
  else if user.validators ≠ [] ∧
      user_event_validate (c.hdr ++ payload) c.junk user.validators ≠ 0 then
    .discarded
  else .committed

/-- The `*faulted = true` flag of user_event_ftrace is set exactly on the
discard path. -/
def sinkFaulted (o : SinkOutcome) : Bool := o = .discarded

/-! ## The event registry (the group's hash table)

The hash table is modelled as the list of its entries; lookup compares
names exactly as `strcmp` does after the jhash bucket walk. -/

structure RegState where
  table : List UserEvent
  current_user_events : Nat
  max_user_events : Nat
deriving Repr, DecidableEq

/-- Default of the max_user_events tunable. -/
def max_user_events : Nat := 32768

def initRegState : RegState :=
  { table := [], current_user_events := 0, max_user_events := max_user_events }

/-- First table entry carrying `name`. -/
def findEvt (table : List UserEvent) (name : List Char) : Option UserEvent :=
  table.find? (fun u => decide (u.name = name))

/-- Rewrite the first table entry carrying `name` with `g`. -/
def updateFirst (name : List Char) (g : UserEvent → UserEvent) :
    List UserEvent → List UserEvent
  | [] => []
  | u :: us => if u.name = name then g u :: us else u :: updateFirst name g us

/-- Drop the first table entry carrying `name`. -/
def removeFirst (name : List Char) : List UserEvent → List UserEvent
  | [] => []
  | u :: us => if u.name = name then us else u :: removeFirst name us

/-- find_user_event: the first entry with the name, with its refcount
incremented, or none. -/
def find_user_event (st : RegState) (name : List Char) :
    Option UserEvent × RegState :=
  match findEvt st.table name with
  | none => (none, st)
  | some u =>
    (some { u with refcnt := u.refcnt + 1 },
     { st with table := updateFirst name (fun v => { v with refcnt := v.refcnt + 1 }) st.table })

/-- The zeroed user_event that kzalloc hands user_event_parse. -/
def blankUserEvent (name : List Char) : UserEvent :=
  { name := name, fields := [], validators := [], min_size := 0,
    refcnt := 0, enabled := false }

/-- Outcomes of the fallible services user_event_parse invokes: kzalloc
of the event, user_event_create_print_fmt (kmalloc), and
user_event_trace_register (register_trace_event plus
user_event_set_call_visible; none = success, some e = its error). -/
structure RegOracle where
  allocOk : Bool
  printFmtOk : Bool
  traceRegister : Option Int

/-- user_event_parse: an existing name returns the found event (one more
reference, the supplied args discarded unparsed); otherwise build a fresh
event — parse fields, build the print format, check the event cap,
register with the trace subsystem — and only after all of that set the
refcount to 2 (table + caller) and insert into the table.  Any failure
leaves the table untouched and frees the partial event. -/
def user_event_parse (o : RegOracle) (st : RegState) (name : List Char)
    (args : Option (List Char)) : Except Int UserEvent × RegState :=
  match find_user_event st name with
  | (some u, st') => (.ok u, st')
  | (none, _) =>
    if ¬ o.allocOk then (.error (-ENOMEM), st)
    else
      match user_event_parse_fields (blankUserEvent name) args with
      | .error e => (.error e, st)
      | .ok built =>
        if ¬ o.printFmtOk then (.error (-ENOMEM), st)
        else if st.current_user_events ≥ st.max_user_events then
          (.error (-EMFILE), st)
        else
          match o.traceRegister with
          | some e => (.error e, st)
          | none =>
            let evt := { built with refcnt := 2 }
            (.ok evt,
             { st with
               table := evt :: st.table
               current_user_events := st.current_user_events + 1 })

/-- Outcome of user_event_set_call_visible(user, false) — the external
trace-visibility layer — during destroy_user_event (none = success). -/
structure DelOracle where
  setCallVisibleOff : Option Int

/-- destroy_user_event: fields are freed first; if removing trace
visibility fails the event stays in the table (its fields already gone);
otherwise the event is unlinked, validators and the event freed, and the
live-event count decremented (the count is floored at 0, as the source
guards the decrement). -/
def destroy_user_event (o : DelOracle) (st : RegState) (name : List Char) :
    Int × RegState :=
  match o.setCallVisibleOff with
  | some e =>
    (e, { st with table := updateFirst name (fun v => { v with fields := [] }) st.table })
  | none =>
    (0, { st with
          table := removeFirst name st.table
          current_user_events := st.current_user_events - 1 })

/-- delete_user_event: look up the name (taking a transient reference),
drop that reference again, fail -EBUSY unless the refcount is back to
exactly 1 (the table's own reference), else destroy the event. -/
def delete_user_event (o : DelOracle) (st : RegState) (name : List Char) :
    Int × RegState :=
  match find_user_event st name with
  | (none, _) => (-ENOENT, st)
  | (some u, st1) =>
    let st2 := { st1 with table := updateFirst name (fun v => { v with refcnt := v.refcnt - 1 }) st1.table }
    if u.refcnt - 1 ≠ 1 then (-EBUSY, st2)
    else destroy_user_event o st2 name

theorem user_event_validate_err_of_fails (data : List Nat) (junk : Int → Nat)
    (vs : List UserValidator) (v : UserValidator) (hv : v ∈ vs)
    (hf : validatorFails data junk v = true) :
    user_event_validate data junk vs = -EFAULT := by
  induction vs with
  | nil => cases hv
  | cons w ws ih =>
    by_cases hw : validatorFails data junk w = true
    · simp [user_event_validate, hw]
    · rcases List.mem_cons.mp hv with rfl | hv'
      · exact absurd hf hw
      · simpa [user_event_validate, hw] using ih hv'

theorem user_event_validate_ok_all_pass (data : List Nat) (junk : Int → Nat)
    (vs : List UserValidator) (h : user_event_validate data junk vs = 0) :
    ∀ v ∈ vs, validatorFails data junk v = false := by
  induction vs with
  | nil => intro v hv; cases hv
  | cons w ws ih =>
    intro v hv
    by_cases hw : validatorFails data junk w = true
    · simp [user_event_validate, hw, EFAULT] at h
    · rcases List.mem_cons.mp hv with rfl | hv'
      · simpa using hw
      · exact ih (by simpa [user_event_validate, hw] using h) v hv'

/-! ## Derived field-layout quantities (for the layout claims) -/

/-- Sum of the stored field sizes. -/
def sumSizesNat (l : List ParsedField) : Nat := (l.map (fun f => f.size)).sum

/-- Whether a stored type is one of the indirect wrapper types. -/
def isIndirectType (t : List Char) : Bool :=
  (strL "__data_loc ").isPrefixOf t || (strL "__rel_loc ").isPrefixOf t

/-- The specification's formula for one field's contribution to the
minimum payload size: its size for a fixed field, 4 bytes (the embedded
locator) for an indirect field. -/
def specFieldBytes (f : ParsedField) : Int :=
  if isIndirectType f.type then 4 else (f.size : Int)

/-- The specification's formula for the minimum payload size. -/
def specMinSize (l : List ParsedField) : Int := (l.map specFieldBytes).sum

/-- Offsets assigned sequentially from `off` (fields in parse order). -/
def seqFrom (off : Nat) : List ParsedField → Bool
  | [] => true
  | f :: fs => (f.offset = off) && seqFrom (off + f.size) fs

/-! ## The emission path (user_events_write_core) -/

/-- Result of user_events_write_core: bytes consumed on success, a
negative errno, or the undefined out-of-bounds array read the source
performs when the supplied 32-bit index is negative (the signed
comparison `idx < refs->count` accepts any negative idx, and
`refs->events[idx]` then reads before the array). -/
inductive WriteResult
  | ok (n : Int)
  | err (e : Int)
  | oobRead
deriving Repr, DecidableEq

/-- The little-endian 4-byte read of the wire index into the C `int idx`
(two's complement). -/
def readIdx (input : List Nat) : Int :=
  let v := input.getD 0 0 % 256 + 256 * (input.getD 1 0 % 256) +
    65536 * (input.getD 2 0 % 256) + 16777216 * (input.getD 3 0 % 256)
  if v < 2 ^ 31 then (v : Int) else (v : Int) - 2 ^ 32

/-- Environment of one write: whether fault_in_iov_iter_readable succeeds
and one FtraceCtx per probe registered on the tracepoint (tp->funcs). -/
structure WriteEnv where
  faultInOk : Bool
  probes : List FtraceCtx

/-- user_events_write_core: read the 4-byte index (short input faults);
look the event up in the RCU refs array — missing array, an index at or
past count, or an empty slot leave `user` NULL and fail -ENOENT, while a
negative index is an out-of-bounds read; a payload shorter than min_size
fails -EINVAL; with no probe attached (`key.enabled` 0) return the full
input byte count immediately with no copy, validation or sink work;
otherwise fault the payload in (-EFAULT on failure), run every probe on
its own copy of the payload, and fail -EFAULT if any probe discarded its
record.  The probe outcomes are returned so the number of sink records is
visible. -/
def user_events_write_core (refs : Option (List (Option UserEvent)))
    (input : List Nat) (env : WriteEnv) : WriteResult × List SinkOutcome :=
  if input.length < 4 then (.err (-EFAULT), [])
  else
    let ret : Int := input.length
    let idx := readIdx input
    match refs with
    | none => (.err (-ENOENT), [])
    | some events =>
      if idx < (events.length : Int) then
        if idx < 0 then (.oobRead, [])
        else
          match events.getD idx.toNat none with
          | none => (.err (-ENOENT), [])
          | some user =>
            let payload := input.drop 4
            if (payload.length : Int) < user.min_size then (.err (-EINVAL), [])
            else if ¬ user.enabled then (.ok ret, [])
            else if ¬ env.faultInOk then (.err (-EFAULT), [])
            else
              let outcomes := env.probes.map (user_event_ftrace user payload)
              (if outcomes.any sinkFaulted then .err (-EFAULT) else .ok ret,
               outcomes)
      else (.err (-ENOENT), [])

/-! ## Registration descriptor validation (user_reg_get, ioctl reg) -/

/-- struct user_reg as copied into the kernel (u32 size; u8 enable_bit;
u8 enable_size; u16 flags; u64 enable_addr; u64 name_args; u32
write_index — all but the size field, which arrives separately). -/
structure UserReg where
  enable_bit : Nat
  enable_size : Nat
  flags : Nat
  enable_addr : Nat
  name_args : Nat
  write_index : Nat
deriving Repr, DecidableEq

def PAGE_SIZE : Nat := 4096
def BITS_PER_BYTE : Nat := 8

/-- offsetofend(struct user_reg, write_index). -/
def userRegEnd : Nat := 28

/-- Environment of user_reg_get: whether the initial get_user of the size
succeeds, the copy_struct_from_user outcome (none = ok; -EFAULT for an
unreadable source, -E2BIG for non-zero bytes past the kernel struct),
whether access_ok accepts the enable address, and whether BITS_PER_LONG
is at least 64. -/
structure RegGetEnv where
  getUserOk : Bool
  copyRes : Option Int
  accessOk : Bool
  bits64 : Bool

/-- user_reg_get: get the declared size (-EFAULT on fault, -E2BIG past a
page, -EINVAL below offsetofend(write_index)), copy the struct, then
validate: flags must be zero, enable_size 4 (or 8 on a 64-bit kernel),
enable_addr naturally aligned to enable_size, enable_bit within
enable_size * 8 - 1, and the address accessible (-EFAULT otherwise). -/
def user_reg_get (env : RegGetEnv) (usize : Nat) (r : UserReg) :
    Except Int (Nat × UserReg) :=
  if ¬ env.getUserOk then .error (-EFAULT)
  else if usize > PAGE_SIZE then .error (-E2BIG)
  else if usize < userRegEnd then .error (-EINVAL)
  else
    match env.copyRes with
    | some e => .error e
    | none =>
      if r.flags ≠ 0 then .error (-EINVAL)
      else if ¬ (r.enable_size = 4 ∨ (env.bits64 ∧ r.enable_size = 8)) then
        .error (-EINVAL)
      else if r.enable_addr % r.enable_size ≠ 0 then .error (-EINVAL)
      else if r.enable_bit > r.enable_size * BITS_PER_BYTE - 1 then
        .error (-EINVAL)
      else if ¬ env.accessOk then .error (-EFAULT)
      else .ok (usize, r)

/-- strpbrk on one character followed by `*p++ = NUL`. -/
def splitFirstCh (c : Char) : List Char → Option (List Char × List Char)
  | [] => none
  | ch :: cs =>
    if ch = c then some ([], cs)
    else
      match splitFirstCh c cs with
      | none => none
      | some (a, b) => some (ch :: a, b)

/-- user_event_parse_cmd: split the raw command at the first space into
name and args, split the name part at the first ':' into name and flags
(the flags are accepted and unused by this version of user_event_parse),
then parse/register. -/
def user_event_parse_cmd (o : RegOracle) (st : RegState) (raw : List Char) :
    Except Int UserEvent × RegState :=
  let na := match splitFirstCh ' ' raw with
    | none => (raw, (none : Option (List Char)))
    | some (a, b) => (a, some b)
  let name := match splitFirstCh ':' na.1 with
    | none => na.1
    | some (a, _) => a
  user_event_parse o st name na.2

/-- user_events_ref_add on the file's array, modelled as the list of the
referenced events' names (registry events are uniquely named): a linear
scan for an existing slot, else allocate the larger array, append, and
take one more reference on the event; returns the index or -ENOMEM. -/
def user_events_ref_add (st : RegState) (refsF : List (List Char))
    (allocOk : Bool) (evtName : List Char) :
    Int × RegState × List (List Char) :=
  match refsF.findIdx? (fun nm => decide (nm = evtName)) with
  | some i => ((i : Int), st, refsF)
  | none =>
    if ¬ allocOk then (-ENOMEM, st, refsF)
    else
      ((refsF.length : Int),
       { st with table := updateFirst evtName (fun v => { v with refcnt := v.refcnt + 1 }) st.table },
       refsF ++ [evtName])

/-- Environment for user_events_ioctl_reg beyond user_reg_get: the
strndup_user outcome for the name string, the registration environment,
the refs-array allocation, and the enabler-creation outcome (none =
enabler created and its status write succeeded; some e = -ENOMEM for a
failed allocation or the non-zero write_result handed back). -/
structure IoctlEnv where
  regGet : RegGetEnv
  nameStr : Except Int (List Char)
  regOracle : RegOracle
  refAllocOk : Bool
  enablerRes : Option Int

/-- user_events_ioctl_reg: validate the descriptor, copy the name,
parse/register the event, add it to the file's refs array, drop the
transient parse reference, create the enabler, and only then write the
index back to the caller (the final Bool records whether caller memory
was written). -/
def user_events_ioctl_reg (env : IoctlEnv) (st : RegState)
    (refsF : List (List Char)) (usize : Nat) (r : UserReg) :
    Int × RegState × List (List Char) × Bool :=
  match user_reg_get env.regGet usize r with
  | .error e => (e, st, refsF, false)
  | .ok _ =>
    match env.nameStr with
    | .error e => (e, st, refsF, false)
    | .ok raw =>
      match user_event_parse_cmd env.regOracle st raw with
      | (.error e, st1) => (e, st1, refsF, false)
      | (.ok user, st1) =>
        match user_events_ref_add st1 refsF env.refAllocOk user.name with
        | (ret, st2, refsF2) =>
          let st3 := { st2 with table := updateFirst user.name (fun v => { v with refcnt := v.refcnt - 1 }) st2.table }
          if ret < 0 then (ret, st3, refsF2, false)
          else
            match env.enablerRes with
            | some e => (e, st3, refsF2, false)
            | none => (0, st3, refsF2, true)

/-- Invariant of the field-parsing loop: offsets assigned sequentially
from the header, the running offset past all parsed fields, min_size the
sum of the stored sizes, indirect fields stored with the 4-byte locator
size. -/
def ParseInv (u : UserEvent) (off : Nat) : Prop :=
  seqFrom sizeofTraceEntry u.fields.reverse = true ∧
  off = sizeofTraceEntry + sumSizesNat u.fields ∧
  u.min_size = (sumSizesNat u.fields : Int) ∧
  ∀ f ∈ u.fields, isIndirectType f.type = true → f.size = 4

theorem updateFirst_updateFirst (name : List Char) (g h : UserEvent → UserEvent)
    (hname : ∀ v, (h v).name = v.name) (t : List UserEvent) :
    updateFirst name g (updateFirst name h t) =
      updateFirst name (fun v => g (h v)) t := by
  induction t with
  | nil => rfl
  | cons u us ih =>
    by_cases hu : u.name = name
    · simp [updateFirst, hu, hname]
    · simp [updateFirst, hu, ih]

theorem updateFirst_id (name : List Char) (g : UserEvent → UserEvent)
    (hg : ∀ v, g v = v) (t : List UserEvent) : updateFirst name g t = t := by
  induction t with
  | nil => rfl
  | cons u us ih => by_cases hu : u.name = name <;> simp [updateFirst, hu, hg, ih]

/-- The transient reference delete_user_event takes and drops leaves the
table exactly as it was. -/
theorem updateFirst_inc_dec (name : List Char) (t : List UserEvent) :
    updateFirst name (fun v => { v with refcnt := v.refcnt - 1 })
      (updateFirst name (fun v => { v with refcnt := v.refcnt + 1 }) t) = t := by
  rw [updateFirst_updateFirst name (fun v => { v with refcnt := v.refcnt - 1 })
    (fun v => { v with refcnt := v.refcnt + 1 }) (fun v => rfl) t]
  exact updateFirst_id name _ (fun v => by simp) t

/-- Behaviour of user_event_parse when the name is not in the table. -/
theorem user_event_parse_absent (o : RegOracle) (st : RegState)
    (name : List Char) (args : Option (List Char))
    (habs : findEvt st.table name = none) :
    user_event_parse o st name args =
      (if ¬ o.allocOk then (.error (-ENOMEM), st)
       else
        match user_event_parse_fields (blankUserEvent name) args with
        | .error e => (.error e, st)
        | .ok built =>
          if ¬ o.printFmtOk then (.error (-ENOMEM), st)
          else if st.current_user_events ≥ st.max_user_events then
            (.error (-EMFILE), st)
          else
            match o.traceRegister with
            | some e => (.error e, st)
            | none =>
              (.ok { built with refcnt := 2 },
               { st with
                 table := { built with refcnt := 2 } :: st.table
                 current_user_events := st.current_user_events + 1 })) := by
  unfold user_event_parse find_user_event
  rw [habs]

/-- C4: registering a name not present in the table inserts the new event
only after field parsing, print-format construction and registration with
the sink-visibility layer have all succeeded, with its refcount exactly 2
(table + caller) at the moment of insertion and the live-event count
bumped; on any failure the table and the count are unchanged (the partial
event is freed, never inserted). -/
theorem claim_C4 (o : RegOracle) (st : RegState) (name : List Char)
    (args : Option (List Char)) (habs : findEvt st.table name = none) :
    (∀ evt st', user_event_parse o st name args = (.ok evt, st') →
      evt.refcnt = 2 ∧ st'.table = evt :: st.table ∧
      st'.current_user_events = st.current_user_events + 1 ∧
      o.allocOk = true ∧ o.printFmtOk = true ∧ o.traceRegister = none ∧
      ∃ built, user_event_parse_fields (blankUserEvent name) args = .ok built ∧
        evt = { built with refcnt := 2 }) ∧
    (∀ e st', user_event_parse o st name args = (.error e, st') → st' = st) := by
  rw [user_event_parse_absent o st name args habs]
  constructor
  · intro evt st' h
    by_cases ha : o.allocOk
    case neg => simp [ha] at h
    rcases hpf : user_event_parse_fields (blankUserEvent name) args with e2 | built <;>
      rw [hpf] at h
    · simp [ha] at h
    by_cases hp : o.printFmtOk
    case neg => simp [ha, hp] at h
    by_cases hc : st.current_user_events ≥ st.max_user_events
    case pos => simp [ha, hp, hc] at h
    rcases hr : o.traceRegister with _ | e2 <;> rw [hr] at h
    · simp only [ha, hp, hc, not_true, not_false_iff, ite_true, ite_false,
        if_true, if_false] at h
      rw [Prod.mk.injEq, Except.ok.injEq] at h
      obtain ⟨h1, h2⟩ := h
      subst h1
      subst h2
      exact ⟨rfl, rfl, rfl, ha, hp, rfl, built, rfl, rfl⟩
    · simp [ha, hp, hc] at h
  · intro e st' h
    by_cases ha : o.allocOk
    case neg =>
      simp [ha] at h
      exact h.2.symm
    rcases hpf : user_event_parse_fields (blankUserEvent name) args with e2 | built <;>
      rw [hpf] at h
    · simp [ha] at h
      exact h.2.symm
    by_cases hp : o.printFmtOk
    case neg =>
      simp [ha, hp] at h
      exact h.2.symm
    by_cases hc : st.current_user_events ≥ st.max_user_events
    case pos =>
      simp [ha, hp, hc] at h
      exact h.2.symm
    rcases hr : o.traceRegister with _ | e2 <;> rw [hr] at h
    · simp [ha, hp, hc] at h
    · simp [ha, hp, hc] at h
      exact h.2.symm

/-- Concrete instantiation of claim_C4: empty registry, default cap, a
fully successful environment. -/
theorem claim_C4_witness :
    (∀ evt st', user_event_parse
        ⟨true, true, none⟩ initRegState (strL "e") none = (.ok evt, st') →
      evt.refcnt = 2 ∧ st'.table = evt :: initRegState.table ∧
      st'.current_user_events = initRegState.current_user_events + 1 ∧
      (⟨true, true, none⟩ : RegOracle).allocOk = true ∧
      (⟨true, true, none⟩ : RegOracle).printFmtOk = true ∧
      (⟨true, true, none⟩ : RegOracle).traceRegister = none ∧
      ∃ built, user_event_parse_fields (blankUserEvent (strL "e")) none =
          .ok built ∧ evt = { built with refcnt := 2 }) ∧
    (∀ e st', user_event_parse
        ⟨true, true, none⟩ initRegState (strL "e") none = (.error e, st') →
      st' = initRegState) :=
  claim_C4 ⟨true, true, none⟩ initRegState (strL "e") none (by decide)

/-- Behaviour of delete_user_event when the name is found: the transient
lookup reference cancels out, so the state compared against is the
original one. -/
theorem delete_user_event_found (o : DelOracle) (st : RegState)
    (name : List Char) (u : UserEvent) (hu : findEvt st.table name = some u) :
    delete_user_event o st name =
      if u.refcnt ≠ 1 then (-EBUSY, st) else destroy_user_event o st name := by
  unfold delete_user_event find_user_event
  rw [hu]
  simp only [Nat.add_sub_cancel, updateFirst_inc_dec]

/-- C5: deleting an unknown name fails -ENOENT; when the refcount before
the delete's own transient lookup reference exceeds 1 the delete fails
-EBUSY with the event still registered and its refcount unchanged;
otherwise (refcount exactly 1, held by the table itself, and the external
visibility removal succeeding) the event is removed from the table, its
fields, validators and the event itself freed, and the live count
dropped. -/
theorem claim_C5 (o : DelOracle) (st : RegState) (name : List Char) :
    (findEvt st.table name = none →
      delete_user_event o st name = (-ENOENT, st)) ∧
    (∀ u, findEvt st.table name = some u → 1 < u.refcnt →
      delete_user_event o st name = (-EBUSY, st)) ∧
    (∀ u, findEvt st.table name = some u → u.refcnt = 1 →
      o.setCallVisibleOff = none →
      delete_user_event o st name =
        (0, { st with
              table := removeFirst name st.table
              current_user_events := st.current_user_events - 1 })) := by
  refine ⟨?_, ?_, ?_⟩
  · intro h
    unfold delete_user_event find_user_event
    rw [h]
  · intro u hu hgt
    rw [delete_user_event_found o st name u hu, if_pos (by omega)]
  · intro u hu h1 hvis
    rw [delete_user_event_found o st name u hu, if_neg (by omega)]
    unfold destroy_user_event
    rw [hvis]

/-- Concrete instantiation of claim_C5: a two-event table; deleting a
missing name, a name with refcount 3, and a name with refcount 1. -/
theorem claim_C5_witness :
    delete_user_event ⟨none⟩
      ⟨[⟨strL "a", [], [], 0, 1, false⟩, ⟨strL "b", [], [], 0, 3, false⟩], 2, 32768⟩
      (strL "z") =
      (-ENOENT,
       ⟨[⟨strL "a", [], [], 0, 1, false⟩, ⟨strL "b", [], [], 0, 3, false⟩], 2, 32768⟩) ∧
    delete_user_event ⟨none⟩
      ⟨[⟨strL "a", [], [], 0, 1, false⟩, ⟨strL "b", [], [], 0, 3, false⟩], 2, 32768⟩
      (strL "b") =
      (-EBUSY,
       ⟨[⟨strL "a", [], [], 0, 1, false⟩, ⟨strL "b", [], [], 0, 3, false⟩], 2, 32768⟩) ∧
    delete_user_event ⟨none⟩
      ⟨[⟨strL "a", [], [], 0, 1, false⟩, ⟨strL "b", [], [], 0, 3, false⟩], 2, 32768⟩
      (strL "a") =
      (0, ⟨[⟨strL "b", [], [], 0, 3, false⟩], 1, 32768⟩) := by
  refine ⟨(claim_C5 ⟨none⟩
      ⟨[⟨strL "a", [], [], 0, 1, false⟩, ⟨strL "b", [], [], 0, 3, false⟩], 2, 32768⟩
      (strL "z")).1 (by decide),
    (claim_C5 ⟨none⟩
      ⟨[⟨strL "a", [], [], 0, 1, false⟩, ⟨strL "b", [], [], 0, 3, false⟩], 2, 32768⟩
      (strL "b")).2.1 ⟨strL "b", [], [], 0, 3, false⟩ (by decide) (by decide),
    (claim_C5 ⟨none⟩
      ⟨[⟨strL "a", [], [], 0, 1, false⟩, ⟨strL "b", [], [], 0, 3, false⟩], 2, 32768⟩
      (strL "a")).2.2 ⟨strL "a", [], [], 0, 1, false⟩ (by decide) rfl rfl⟩

/-- C6: registering a name that already exists returns the stored event
with one more (caller) reference; its fields, validators and minimum size
are untouched; the rest of the table and the event count are unchanged;
and the newly supplied field spec and the allocation/registration
environment are ignored entirely — the args are never parsed. -/
theorem claim_C6 (o o2 : RegOracle) (st : RegState) (name : List Char)
    (args args2 : Option (List Char)) (u : UserEvent)
    (hfind : findEvt st.table name = some u) :
    user_event_parse o st name args =
      (.ok { u with refcnt := u.refcnt + 1 },
       { st with table :=
          updateFirst name (fun v => { v with refcnt := v.refcnt + 1 }) st.table }) ∧
    ({ u with refcnt := u.refcnt + 1 } : UserEvent).fields = u.fields ∧
    ({ u with refcnt := u.refcnt + 1 } : UserEvent).validators = u.validators ∧
    ({ u with refcnt := u.refcnt + 1 } : UserEvent).min_size = u.min_size ∧
    user_event_parse o st name args = user_event_parse o2 st name args2 := by
  have h : ∀ (o3 : RegOracle) (args3 : Option (List Char)),
      user_event_parse o3 st name args3 =
        (.ok { u with refcnt := u.refcnt + 1 },
         { st with table :=
            updateFirst name (fun v => { v with refcnt := v.refcnt + 1 }) st.table }) := by
    intro o3 args3
    unfold user_event_parse find_user_event
    rw [hfind]
  exact ⟨h o args, rfl, rfl, rfl, (h o args).trans (h o2 args2).symm⟩

/-- Concrete instantiation of claim_C6: a stored event with one field
spec, re-registered under a conflicting field spec and a failing
environment — same result either way. -/
theorem claim_C6_witness :
    user_event_parse ⟨true, true, none⟩
      ⟨[⟨strL "a", [⟨strL "u32", strL "x", 8, 4, false⟩], [], 4, 1, false⟩], 1, 32768⟩
      (strL "a") (some (strL "u32 x")) =
      (.ok ⟨strL "a", [⟨strL "u32", strL "x", 8, 4, false⟩], [], 4, 2, false⟩,
       ⟨[⟨strL "a", [⟨strL "u32", strL "x", 8, 4, false⟩], [], 4, 2, false⟩], 1, 32768⟩) ∧
    user_event_parse ⟨true, true, none⟩
      ⟨[⟨strL "a", [⟨strL "u32", strL "x", 8, 4, false⟩], [], 4, 1, false⟩], 1, 32768⟩
      (strL "a") (some (strL "u32 x")) =
      user_event_parse ⟨false, false, some (-ENODEV)⟩
      ⟨[⟨strL "a", [⟨strL "u32", strL "x", 8, 4, false⟩], [], 4, 1, false⟩], 1, 32768⟩
      (strL "a") (some (strL "completely different junk")) := by
  have h := claim_C6 ⟨true, true, none⟩ ⟨false, false, some (-ENODEV)⟩
    ⟨[⟨strL "a", [⟨strL "u32", strL "x", 8, 4, false⟩], [], 4, 1, false⟩], 1, 32768⟩
    (strL "a") (some (strL "u32 x")) (some (strL "completely different junk"))
    ⟨strL "a", [⟨strL "u32", strL "x", 8, 4, false⟩], [], 4, 1, false⟩ (by decide)
  exact ⟨h.1, h.2.2.2.2⟩

/-- C9: with the live-event count at or above the cap, registration of a
new (absent) name whose remaining steps would succeed fails -EMFILE with
the state unchanged (the check precedes trace registration and
insertion); registration and delete both preserve count ≤ cap; and the
cap's default value is 32768. -/
theorem claim_C9 (o : RegOracle) (st : RegState) (name : List Char)
    (args : Option (List Char)) (built : UserEvent) :
    (findEvt st.table name = none →
      st.max_user_events ≤ st.current_user_events →
      o.allocOk = true → o.printFmtOk = true →
      user_event_parse_fields (blankUserEvent name) args = .ok built →
      user_event_parse o st name args = (.error (-EMFILE), st)) ∧
    (st.current_user_events ≤ st.max_user_events →
      (user_event_parse o st name args).2.current_user_events ≤
        st.max_user_events) ∧
    (∀ od : DelOracle, st.current_user_events ≤ st.max_user_events →
      (delete_user_event od st name).2.current_user_events ≤
        st.max_user_events) ∧
    initRegState.max_user_events = 32768 := by
  refine ⟨?_, ?_, ?_, rfl⟩
  · intro habs hcap ha hp hpf
    rw [user_event_parse_absent o st name args habs, hpf]
    simp [ha, hp, Nat.le_of_lt, hcap]
  · intro hle
    rcases hfind : findEvt st.table name with _ | u
    · rw [user_event_parse_absent o st name args hfind]
      by_cases ha : o.allocOk
      · rcases hpf : user_event_parse_fields (blankUserEvent name) args with e | b
        · simp [ha, hpf, hle]
        · by_cases hp : o.printFmtOk
          · by_cases hc : st.current_user_events ≥ st.max_user_events
            · simp [ha, hpf, hp, hc, hle]
            · rcases hr : o.traceRegister with _ | e
              · simp [ha, hpf, hp, hc, hr]
                omega
              · simp [ha, hpf, hp, hc, hr, hle]
          · simp [ha, hpf, hp, hle]
      · simp [ha, hle]
    · unfold user_event_parse find_user_event
      rw [hfind]
      simpa using hle
  · intro od hle
    rcases hfind : findEvt st.table name with _ | u
    · unfold delete_user_event find_user_event
      rw [hfind]
      simpa using hle
    · rw [delete_user_event_found od st name u hfind]
      by_cases h1 : u.refcnt ≠ 1
      · simp [h1, hle]
      · rcases hvis : od.setCallVisibleOff with _ | e
        · simp [h1, hvis, destroy_user_event]
          omega
        · simp [h1, hvis, destroy_user_event, hle]

/-- Concrete instantiation of claim_C9: a registry whose cap is already
reached rejects a fresh registration with -EMFILE. -/
theorem claim_C9_witness :
    user_event_parse ⟨true, true, none⟩ ⟨[], 1, 1⟩ (strL "e") none =
      (.error (-EMFILE), ⟨[], 1, 1⟩) ∧
    initRegState.max_user_events = 32768 := by
  have h := claim_C9 ⟨true, true, none⟩ ⟨[], 1, 1⟩ (strL "e") none
    (blankUserEvent (strL "e"))
  exact ⟨h.1 (by decide) (by decide) rfl rfl rfl, h.2.2.2⟩

theorem parseFieldParts_error_neg (parts : List (List Char)) :
    ∀ d is_struct type0 oname size0 e,
      parseFieldParts parts d is_struct type0 oname size0 = .error e → e < 0 := by
  induction parts with
  | nil => intro d is_struct type0 oname size0 e h; simp [parseFieldParts] at h
  | cons p ps ih =>
    intro d is_struct type0 oname size0 e h
    match d with
    | 0 => exact ih 1 is_struct p oname size0 e h
    | 1 => exact ih 2 is_struct type0 (some p) size0 e h
    | 2 =>
      rw [parseFieldParts] at h
      by_cases hs : is_struct
      · rcases hk : kstrtou32 p 10 with e2 | v <;> rw [hk] at h
        · simp [hs, EINVAL] at h
          omega
        · simp [hs] at h
          exact ih 3 true type0 oname (toInt32 v) e h
      · simp [hs, EINVAL] at h
        omega
    | (n + 3) =>
      simp [parseFieldParts, EINVAL] at h
      omega

theorem finishSpec_error_neg (is_struct : Bool) (type0 : List Char)
    (parts : List (List Char)) (depth0 : Nat) (e : Int)
    (h : finishSpec is_struct type0 parts depth0 = .error e) : e < 0 := by
  unfold finishSpec at h
  rcases hp : parseFieldParts parts depth0 is_struct type0 none (-EINVAL)
      with e2 | ⟨type, oname, size0, depth⟩ <;> rw [hp] at h
  · simp only [Except.error.injEq] at h
    exact h ▸ parseFieldParts_error_neg parts depth0 is_struct type0 none
      (-EINVAL) e2 hp
  · by_cases h1 : depth < 2 ∨ oname = none
    · simp only [h1, if_true, ite_true, Except.error.injEq] at h
      simp [← h, EINVAL]
    · simp only [h1, if_false, ite_false] at h
      by_cases h2 : (if depth = 2 then user_field_size type else size0) = 0
      · simp only [h2, if_true, ite_true, Except.error.injEq] at h
        simp [← h, EINVAL]
      · simp only [h2, if_false, ite_false] at h
        by_cases h3 : (if depth = 2 then user_field_size type else size0) < 0
        · simp only [h3, if_true, ite_true, Except.error.injEq] at h
          omega
        · simp only [h3, if_false, ite_false] at h
          cases h

theorem fieldSpecOf_error_neg (f : List Char) (e : Int)
    (h : fieldSpecOf f = .error e) : e < 0 := by
  unfold fieldSpecOf at h
  dsimp only at h
  split at h
  · cases h
  · split at h
    · rename_i len is_struct heq
      split at h
      · simp only [Except.error.injEq] at h
        simp [← h, EINVAL]
      · rename_i tail rest heq2
        rcases hfs : finishSpec is_struct
            (List.take len (skipSpaces f) ++ tail) (splitOnChar ' ' rest) 1
          with e2 | v <;> rw [hfs] at h <;> simp only [Except.map] at h
        · cases h
          exact finishSpec_error_neg _ _ _ _ _ hfs
        · cases h
    · rcases hfs : finishSpec false [] (splitOnChar ' ' (skipSpaces f)) 0
        with e2 | v <;> rw [hfs] at h <;> simp only [Except.map] at h
      · cases h
        exact finishSpec_error_neg _ _ _ _ _ hfs
      · cases h

/-- A field list containing a field whose spec fails to parse makes the
whole list parse fail (with the first such error, a negative errno). -/
theorem parseFieldList_err (fs : List (List Char)) :
    (∃ f ∈ fs, ∃ e, fieldSpecOf f = .error e) →
    ∀ (u : UserEvent) (off : Nat),
      ∃ e2, e2 < 0 ∧ parseFieldList fs u off = .error e2 := by
  induction fs with
  | nil => rintro ⟨f, hf, _⟩; cases hf
  | cons f0 fs ih =>
    rintro ⟨f, hf, e, he⟩ u off
    rcases h0 : fieldSpecOf f0 with e0 | v0
    · exact ⟨e0, fieldSpecOf_error_neg f0 e0 h0,
        by simp [parseFieldList, user_event_parse_field, h0]⟩
    · have hf' : f ∈ fs := by
        rcases List.mem_cons.mp hf with rfl | hmem
        · rw [h0] at he; cases he
        · exact hmem
      rcases hpf0 : user_event_parse_field f0 u off with e0 | ⟨u1, off1⟩
      · unfold user_event_parse_field at hpf0
        rw [h0] at hpf0
        rcases v0 with _ | ⟨type, nm, sz⟩ <;> simp at hpf0
      · obtain ⟨e2, he2, hl⟩ := ih ⟨f, hf', e, he⟩ u1 off1
        exact ⟨e2, he2, by simp [parseFieldList, hpf0, hl]⟩

/-- C7: a field list containing a field with an unknown type keyword, a
missing name, a computed size of zero, an oversized array, or a malformed
array/size token (each shown at a representative below, all instances of
a field whose spec parse fails) makes registration of an absent name fail
with a negative error: the list parse aborts at the first failing field
and the registry state is unchanged — no partial event is inserted (the
partially built event is freed). -/
theorem claim_C7 (o : RegOracle) (st : RegState) (name : List Char)
    (args : List Char) (habs : findEvt st.table name = none)
    (ha : o.allocOk = true)
    (hbad : ∃ f ∈ splitOnChar ';' args, ∃ e, fieldSpecOf f = .error e) :
    (∃ e2, e2 < 0 ∧
      user_event_parse_fields (blankUserEvent name) (some args) = .error e2 ∧
      user_event_parse o st name (some args) = (.error e2, st)) ∧
    fieldSpecOf (strL "foo bar") = .error (-EINVAL) ∧
    fieldSpecOf (strL "int") = .error (-EINVAL) ∧
    fieldSpecOf (strL "struct s x 0") = .error (-EINVAL) ∧
    fieldSpecOf (strL "char[2000] x") = .error (-EINVAL) ∧
    fieldSpecOf (strL "char[1za] x") = .error (-EINVAL) := by
  refine ⟨?_, by rfl, by rfl, by rfl, by rfl, by rfl⟩
  obtain ⟨e2, he2, hl⟩ := parseFieldList_err (splitOnChar ';' args) hbad
    (blankUserEvent name) sizeofTraceEntry
  have hfields : user_event_parse_fields (blankUserEvent name) (some args) =
      .error e2 := hl
  refine ⟨e2, he2, hfields, ?_⟩
  rw [user_event_parse_absent o st name (some args) habs, hfields]
  simp [ha]

/-- Concrete instantiation of claim_C7: a field list whose second entry
has an unknown type keyword. -/
theorem claim_C7_witness :
    (∃ e2, e2 < 0 ∧
      user_event_parse_fields (blankUserEvent (strL "e"))
        (some (strL "u32 ok;foo bar")) = .error e2 ∧
      user_event_parse ⟨true, true, none⟩ initRegState (strL "e")
        (some (strL "u32 ok;foo bar")) = (.error e2, initRegState)) ∧
    fieldSpecOf (strL "foo bar") = .error (-EINVAL) ∧
    fieldSpecOf (strL "int") = .error (-EINVAL) ∧
    fieldSpecOf (strL "struct s x 0") = .error (-EINVAL) ∧
    fieldSpecOf (strL "char[2000] x") = .error (-EINVAL) ∧
    fieldSpecOf (strL "char[1za] x") = .error (-EINVAL) :=
  claim_C7 ⟨true, true, none⟩ initRegState (strL "e") (strL "u32 ok;foo bar")
    (by decide) rfl ⟨strL "foo bar", by decide, -EINVAL, by rfl⟩

/-- C1: for every event with at least one Validator and every payload that
passes the minimum-size check, if some validator's computed end offset
(relative: validator offset + embedded 16-bit offset + 4 + embedded 16-bit
length; absolute: embedded offset + length from record start) exceeds the
record length, or the byte at end-1 is non-null when null termination is
required, then user_event_validate fails with -EFAULT and user_event_ftrace
never commits the record to the sink; moreover a record is committed only
when every validator of the event's list passes. -/
theorem claim_C1 (user : UserEvent) (payload : List Nat) (c : FtraceCtx)
    (hvs : user.validators ≠ [])
    (hmin : user.min_size ≤ (payload.length : Int))
    (hfail : ∃ v ∈ user.validators,
      validatorFails (c.hdr ++ payload) c.junk v = true) :
    user_event_validate (c.hdr ++ payload) c.junk user.validators = -EFAULT ∧
    user_event_ftrace user payload c ≠ .committed ∧
    (∀ (u' : UserEvent) (p' : List Nat) (c' : FtraceCtx),
      user_event_ftrace u' p' c' = .committed →
      ∀ v ∈ u'.validators, validatorFails (c'.hdr ++ p') c'.junk v = false) := by
  obtain ⟨v, hv, hf⟩ := hfail
  have hval := user_event_validate_err_of_fails (c.hdr ++ payload) c.junk
    user.validators v hv hf
  refine ⟨hval, ?_, ?_⟩
  · unfold user_event_ftrace
    by_cases h1 : c.fileEnabled
    · by_cases h2 : c.reserveOk
      · by_cases h3 : c.copyOk
        · have : user_event_validate (c.hdr ++ payload) c.junk
              user.validators ≠ 0 := by
            rw [hval]; decide
          simp [h1, h2, h3, hvs, this]
        · simp [h1, h2, h3]
      · simp [h1, h2]
    · simp [h1]
  · intro u' p' c' hc v' hv'
    unfold user_event_ftrace at hc
    by_cases h1 : c'.fileEnabled
    · by_cases h2 : c'.reserveOk
      · by_cases h3 : c'.copyOk
        · by_cases h4 : u'.validators = []
          · rw [h4] at hv'; cases hv'
          · have hok : user_event_validate (c'.hdr ++ p') c'.junk
                u'.validators = 0 := by
              by_contra hne
              simp [h1, h2, h3, h4, hne] at hc
            exact user_event_validate_ok_all_pass _ _ _ hok v' hv'
        · simp [h1, h2, h3] at hc
      · simp [h1, h2] at hc
    · simp [h1] at hc

/-- Concrete instantiation of claim_C1: one absolute validator at offset 8,
record of length 12, embedded offset 256 and length 0, so the computed end
256 exceeds the record length. -/
theorem claim_C1_witness :
    (let user : UserEvent :=
      { name := [], fields := [],
        validators := [{ offset := 8, ensureNull := false, rel := false }],
        min_size := 4, refcnt := 2, enabled := true }
     let payload : List Nat := [0, 1, 0, 0]
     let c : FtraceCtx :=
      { fileEnabled := true, reserveOk := true, copyOk := true,
        hdr := [0, 0, 0, 0, 0, 0, 0, 0], junk := fun _ => 0 }
     user_event_validate (c.hdr ++ payload) c.junk user.validators = -EFAULT ∧
     user_event_ftrace user payload c ≠ .committed ∧
     (∀ (u' : UserEvent) (p' : List Nat) (c' : FtraceCtx),
       user_event_ftrace u' p' c' = .committed →
       ∀ v ∈ u'.validators, validatorFails (c'.hdr ++ p') c'.junk v = false)) := by
  exact claim_C1 _ _ _ (by decide) (by decide)
    ⟨{ offset := 8, ensureNull := false, rel := false }, by decide, by decide⟩

theorem parseFieldParts_type_of_pos (ps : List (List Char)) :
    ∀ (d : Nat) (is_struct : Bool) (t0 : List Char) (n0 : Option (List Char))
      (s0 : Int) (t : List Char) (n : Option (List Char)) (sz : Int) (dep : Nat),
      1 ≤ d → parseFieldParts ps d is_struct t0 n0 s0 = .ok (t, n, sz, dep) →
      t = t0 := by
  induction ps with
  | nil =>
    intro d is_struct t0 n0 s0 t n sz dep _ h
    simp [parseFieldParts] at h
    exact h.1.symm
  | cons p ps ih =>
    intro d is_struct t0 n0 s0 t n sz dep hd h
    match d, hd with
    | 1, _ => exact ih 2 is_struct t0 (some p) s0 t n sz dep (by omega) h
    | 2, _ =>
      rw [parseFieldParts] at h
      by_cases hs : is_struct
      · rcases hk : kstrtou32 p 10 with e2 | v <;> rw [hk] at h
        · simp [hs] at h
        · simp only [hs] at h
          exact ih 3 true t0 n0 (toInt32 v) t n sz dep (by omega) h
      · simp [hs] at h
    | (m + 3), _ => simp [parseFieldParts] at h

theorem parseFieldParts_size_nostruct (ps : List (List Char)) :
    ∀ (d : Nat) (t0 : List Char) (n0 : Option (List Char)) (s0 : Int)
      (t : List Char) (n : Option (List Char)) (sz : Int) (dep : Nat),
      parseFieldParts ps d false t0 n0 s0 = .ok (t, n, sz, dep) → sz = s0 := by
  induction ps with
  | nil =>
    intro d t0 n0 s0 t n sz dep h
    simp [parseFieldParts] at h
    exact h.2.2.1.symm
  | cons p ps ih =>
    intro d t0 n0 s0 t n sz dep h
    match d with
    | 0 => exact ih 1 p n0 s0 t n sz dep h
    | 1 => exact ih 2 t0 (some p) s0 t n sz dep h
    | 2 => simp [parseFieldParts] at h
    | (m + 3) => simp [parseFieldParts] at h

theorem finishSpec_ok (is_struct : Bool) (t0 : List Char)
    (parts : List (List Char)) (d0 : Nat) (t n : List Char) (sz : Int)
    (h : finishSpec is_struct t0 parts d0 = .ok (t, n, sz)) :
    0 < sz ∧ (is_struct = false → sz = user_field_size t) ∧
      (is_struct = true → d0 = 1 → t = t0) := by
  unfold finishSpec at h
  rcases hp : parseFieldParts parts d0 is_struct t0 none (-EINVAL)
      with e2 | ⟨t2, oname, size0, depth⟩ <;> rw [hp] at h
  · cases h
  · by_cases h1 : depth < 2 ∨ oname = none
    · simp [h1] at h
    · simp only [h1, if_false, ite_false] at h
      by_cases h2 : (if depth = 2 then user_field_size t2 else size0) = 0
      · simp [h2] at h
      · simp only [h2, if_false, ite_false] at h
        by_cases h3 : (if depth = 2 then user_field_size t2 else size0) < 0
        · simp [h3] at h
        · simp only [h3, if_false, ite_false, Except.ok.injEq,
            Prod.mk.injEq] at h
          obtain ⟨rfl, -, rfl⟩ := h
          refine ⟨by omega, ?_, ?_⟩
          · intro hs
            rw [hs] at hp
            have hsz0 : size0 = -EINVAL :=
              parseFieldParts_size_nostruct parts d0 t0 none (-EINVAL)
                t2 oname size0 depth hp
            by_cases hdep : depth = 2
            · simp [hdep]
            · exfalso
              rw [if_neg hdep, hsz0] at h3
              simp [EINVAL] at h3
          · intro hs hd0
            rw [hs] at hp
            rw [hd0] at hp
            exact parseFieldParts_type_of_pos parts 1 true t0 none (-EINVAL)
              t2 oname size0 depth (by omega) hp

theorem user_field_size_indirect (t : List Char)
    (h : isIndirectType t = true) : user_field_size t = 4 := by
  rcases Bool.or_eq_true_iff.mp h with h2 | h2
  · obtain ⟨rest, rfl⟩ : ∃ rest, t = strL "__data_loc " ++ rest := by
      obtain ⟨rest, hr⟩ := List.isPrefixOf_iff_prefix.mp h2
      exact ⟨rest, hr.symm⟩
    unfold user_field_size
    simp [strL, List.isPrefixOf]
  · obtain ⟨rest, rfl⟩ : ∃ rest, t = strL "__rel_loc " ++ rest := by
      obtain ⟨rest, hr⟩ := List.isPrefixOf_iff_prefix.mp h2
      exact ⟨rest, hr.symm⟩
    unfold user_field_size
    simp [strL, List.isPrefixOf]

theorem fieldSpecOf_ok_some (f : List Char) (t n : List Char) (sz : Int)
    (h : fieldSpecOf f = .ok (some (t, n, sz))) :
    0 < sz ∧ (isIndirectType t = true → sz = 4) := by
  unfold fieldSpecOf at h
  dsimp only at h
  split at h
  · simp at h
  · split at h
    · rename_i len is_struct heq
      split at h
      · simp at h
      · rename_i tail rest heq2
        rcases hfs : finishSpec is_struct
            (List.take len (skipSpaces f) ++ tail) (splitOnChar ' ' rest) 1
          with e2 | ⟨t2, n2, sz2⟩ <;> rw [hfs] at h <;>
          simp only [Except.map] at h
        · cases h
        · obtain ⟨rfl, rfl, rfl⟩ : t2 = t ∧ n2 = n ∧ sz2 = sz := by
            simpa using h
          obtain ⟨hpos, hns, hst⟩ := finishSpec_ok _ _ _ _ _ _ _ hfs
          refine ⟨hpos, ?_⟩
          intro hind
          by_cases hs : is_struct
          · exfalso
            split at heq
            · simp [hs] at heq
            · split at heq
              · rename_i hc1 hc2
                obtain ⟨hlen, -⟩ : 7 = len ∧ true = is_struct := by
                  simpa using heq
                subst hlen
                obtain ⟨rest2, hr⟩ := List.isPrefixOf_iff_prefix.mp hc2
                have htake : List.take 7 (skipSpaces f) = strL "struct " := by
                  rw [← hr]
                  have hlen7 : (strL "struct ").length = 7 := by decide
                  rw [← hlen7, List.take_left]
                have ht : t2 = strL "struct " ++ tail := by
                  rw [hst hs rfl, htake]
                rw [ht] at hind
                simp [isIndirectType, strL, List.isPrefixOf] at hind
              · split at heq
                · simp [hs] at heq
                · split at heq
                  · simp [hs] at heq
                  · split at heq
                    · simp [hs] at heq
                    · split at heq
                      · simp [hs] at heq
                      · simp at heq
          · rw [hns (by simpa using hs)]
            exact user_field_size_indirect t2 hind
    · rcases hfs : finishSpec false [] (splitOnChar ' ' (skipSpaces f)) 0
        with e2 | ⟨t2, n2, sz2⟩ <;> rw [hfs] at h <;>
        simp only [Except.map] at h
      · cases h
      · obtain ⟨rfl, rfl, rfl⟩ : t2 = t ∧ n2 = n ∧ sz2 = sz := by simpa using h
        obtain ⟨hpos, hns, -⟩ := finishSpec_ok _ _ _ _ _ _ _ hfs
        exact ⟨hpos, fun hind => (hns rfl).trans (user_field_size_indirect t2 hind)⟩

theorem sumSizesNat_reverse (l : List ParsedField) :
    sumSizesNat l.reverse = sumSizesNat l := by
  simp [sumSizesNat, List.sum_reverse]

theorem specMinSize_eq_sum (l : List ParsedField)
    (h : ∀ f ∈ l, isIndirectType f.type = true → f.size = 4) :
    specMinSize l = (sumSizesNat l : Int) := by
  induction l with
  | nil => rfl
  | cons f fs ih =>
    have ih2 := ih (fun g hg hgi => h g (List.mem_cons_of_mem f hg) hgi)
    simp only [specMinSize, sumSizesNat, List.map_cons, List.sum_cons] at *
    rw [ih2]
    by_cases hi : isIndirectType f.type
    · rw [specFieldBytes, if_pos hi, h f (by simp) hi]
      push_cast
      ring
    · rw [specFieldBytes, if_neg hi]
      push_cast
      ring

theorem seqFrom_snoc (l : List ParsedField) :
    ∀ (a : Nat) (f : ParsedField),
      seqFrom a (l ++ [f]) =
        (seqFrom a l && decide (f.offset = a + sumSizesNat l)) := by
  induction l with
  | nil => intro a f; simp [seqFrom, sumSizesNat]
  | cons g l ih =>
    intro a f
    simp only [List.cons_append, seqFrom, List.append_eq]
    rw [ih]
    simp only [sumSizesNat, List.map_cons, List.sum_cons, Nat.add_assoc,
      Bool.and_assoc]

theorem user_event_add_field_fields (u : UserEvent) (t n : List Char)
    (off sz : Nat) (sgn : Bool) :
    (user_event_add_field u t n off sz sgn).fields =
      ⟨t, n, off, sz, sgn⟩ :: u.fields ∧
    (user_event_add_field u t n off sz sgn).min_size =
      (off : Int) + sz - sizeofTraceEntry := by
  unfold user_event_add_field
  by_cases hD : strL "__data_loc " <+: t ∨ strL "__rel_loc " <+: t <;>
    simp [hD]

theorem parse_field_inv (f : List Char) (u : UserEvent) (off : Nat)
    (u1 : UserEvent) (off1 : Nat)
    (h : user_event_parse_field f u off = .ok (u1, off1))
    (hi : ParseInv u off) : ParseInv u1 off1 := by
  unfold user_event_parse_field at h
  rcases hs : fieldSpecOf f with e | v <;> rw [hs] at h
  · cases h
  · rcases v with _ | ⟨t, n, sz⟩
    · obtain ⟨rfl, rfl⟩ : u = u1 ∧ off = off1 := by simpa using h
      exact hi
    · obtain ⟨hu1, hoff1⟩ :
          user_event_add_field u t n off sz.toNat
            (t.headD (Char.ofNat 0) ≠ 'u') = u1 ∧ off + sz.toNat = off1 := by
        simpa using h
      obtain ⟨hpos, hind4⟩ := fieldSpecOf_ok_some f t n sz hs
      obtain ⟨hseq, hoff, hmin, hind⟩ := hi
      obtain ⟨hfields, hminsz⟩ := user_event_add_field_fields u t n off
        sz.toNat (t.headD (Char.ofNat 0) ≠ 'u')
      subst hu1
      subst hoff1
      refine ⟨?_, ?_, ?_, ?_⟩
      · rw [hfields, List.reverse_cons, seqFrom_snoc, hseq,
          sumSizesNat_reverse]
        simp [hoff]
      · rw [hfields]
        simp only [sumSizesNat, List.map_cons, List.sum_cons]
        unfold sumSizesNat at hoff
        omega
      · rw [hminsz, hfields]
        simp only [sumSizesNat, List.map_cons, List.sum_cons]
        rw [Nat.cast_add, Int.toNat_of_nonneg hpos.le]
        unfold sumSizesNat at hoff
        omega
      · rw [hfields]
        intro g hg hgi
        rcases List.mem_cons.mp hg with rfl | hmem
        · have h4 : sz = 4 := hind4 hgi
          simp [h4]
        · exact hind g hmem hgi

theorem parseFieldList_inv (fs : List (List Char)) :
    ∀ (u : UserEvent) (off : Nat) (u' : UserEvent),
      parseFieldList fs u off = .ok u' → ParseInv u off →
      ∃ off', ParseInv u' off' := by
  induction fs with
  | nil =>
    intro u off u' h hi
    obtain rfl : u = u' := by simpa [parseFieldList] using h
    exact ⟨off, hi⟩
  | cons f fs ih =>
    intro u off u' h hi
    rw [parseFieldList] at h
    rcases hp : user_event_parse_field f u off with e | ⟨u1, off1⟩ <;>
      rw [hp] at h
    · cases h
    · exact ih u1 off1 u' h (parse_field_inv f u off u1 off1 hp hi)

/-- C8: for every successfully parsed field specification the field
offsets are assigned sequentially starting right after the fixed record
header, and the minimum payload size equals the sum of the stored field
sizes, which is exactly the sum of the fixed-field sizes plus 4 bytes per
indirect (__data_loc/__rel_loc) field, excluding the header; in
particular "char[20] msg;unsigned int id" yields char[20] msg at offset H
with size 20 and unsigned int id at offset H+20 with size 4 (H the header
size) and minimum payload size 24. -/
theorem claim_C8 :
    (∀ (name args : List Char) (u' : UserEvent),
      user_event_parse_fields (blankUserEvent name) (some args) = .ok u' →
      seqFrom sizeofTraceEntry u'.fields.reverse = true ∧
      u'.min_size = (sumSizesNat u'.fields : Int) ∧
      u'.min_size = specMinSize u'.fields) ∧
    user_event_parse_fields (blankUserEvent (strL "test"))
        (some (strL "char[20] msg;unsigned int id")) =
      .ok { name := strL "test"
            fields := [⟨strL "unsigned int", strL "id", sizeofTraceEntry + 20, 4, false⟩,
                       ⟨strL "char[20]", strL "msg", sizeofTraceEntry, 20, true⟩]
            validators := []
            min_size := 24
            refcnt := 0
            enabled := false } := by
  constructor
  · intro name args u' h
    have hbase : ParseInv (blankUserEvent name) sizeofTraceEntry := by
      refine ⟨rfl, by simp [blankUserEvent, sumSizesNat], rfl, ?_⟩
      intro g hg
      simp [blankUserEvent] at hg
    obtain ⟨off', h1, h2, h3, h4⟩ := parseFieldList_inv _ _ _ _ h hbase
    exact ⟨h1, h3, h3.trans (specMinSize_eq_sum _ h4).symm⟩
  · rfl

/-- Concrete instantiation of claim_C8 at the example registration. -/
theorem claim_C8_witness :
    seqFrom sizeofTraceEntry
      ([⟨strL "unsigned int", strL "id", sizeofTraceEntry + 20, 4, false⟩,
        ⟨strL "char[20]", strL "msg", sizeofTraceEntry, 20, true⟩] :
        List ParsedField).reverse = true ∧
    (24 : Int) =
      (sumSizesNat [⟨strL "unsigned int", strL "id", sizeofTraceEntry + 20, 4, false⟩,
        ⟨strL "char[20]", strL "msg", sizeofTraceEntry, 20, true⟩] : Int) ∧
    (24 : Int) =
      specMinSize [⟨strL "unsigned int", strL "id", sizeofTraceEntry + 20, 4, false⟩,
        ⟨strL "char[20]", strL "msg", sizeofTraceEntry, 20, true⟩] := by
  have h := claim_C8.1 (strL "test") (strL "char[20] msg;unsigned int id")
    { name := strL "test"
      fields := [⟨strL "unsigned int", strL "id", sizeofTraceEntry + 20, 4, false⟩,
                 ⟨strL "char[20]", strL "msg", sizeofTraceEntry, 20, true⟩]
      validators := []
      min_size := 24
      refcnt := 0
      enabled := false } (by rfl)
  exact h

/-- C2: evaluation of the emission path at the decisive inputs.  The
claimed NotFound/InvalidArgument behaviour holds — with zero sink
records — for a missing refs array, a non-negative out-of-range index, an
empty slot, and a too-short payload; but an out-of-range index supplied
as 0xffffffff is read into the C `int idx` as -1, passes the signed
`idx < refs->count` check, and makes the source read refs->events[-1]
out of bounds instead of failing -ENOENT, so the claim's "out of range
fails with NotFound" is violated at that input (later kernels add an
explicit negative-index rejection). -/
theorem claim_C2 :
    user_events_write_core
      (some [some { name := strL "a", fields := [], validators := [],
                    min_size := 2, refcnt := 2, enabled := false }])
      [255, 255, 255, 255] ⟨true, []⟩ = (.oobRead, []) ∧
    readIdx [255, 255, 255, 255] = -1 ∧
    user_events_write_core none [0, 0, 0, 0] ⟨true, []⟩ =
      (.err (-ENOENT), []) ∧
    user_events_write_core
      (some [some { name := strL "a", fields := [], validators := [],
                    min_size := 2, refcnt := 2, enabled := false }])
      [1, 0, 0, 0] ⟨true, []⟩ = (.err (-ENOENT), []) ∧
    user_events_write_core (some [none]) [0, 0, 0, 0] ⟨true, []⟩ =
      (.err (-ENOENT), []) ∧
    user_events_write_core
      (some [some { name := strL "a", fields := [], validators := [],
                    min_size := 2, refcnt := 2, enabled := false }])
      [0, 0, 0, 0, 9] ⟨true, []⟩ = (.err (-EINVAL), []) :=
  ⟨rfl, rfl, rfl, rfl, rfl, rfl⟩

/-- C3: an emit that resolves to a valid event whose tracepoint has no
probe attached (live-status 0) and whose payload meets the minimum size
succeeds with the full supplied byte count and performs no copy,
validation or sink work — zero sink records. -/
theorem claim_C3 (refs : List (Option UserEvent)) (input : List Nat)
    (env : WriteEnv) (user : UserEvent)
    (h4 : 4 ≤ input.length)
    (hnn : 0 ≤ readIdx input)
    (hlt : readIdx input < (refs.length : Int))
    (hslot : refs.getD (readIdx input).toNat none = some user)
    (hmin : user.min_size ≤ ((input.drop 4).length : Int))
    (hoff : user.enabled = false) :
    user_events_write_core (some refs) input env =
      (.ok (input.length : Int), []) := by
  unfold user_events_write_core
  rw [if_neg (by omega : ¬ input.length < 4)]
  dsimp only
  rw [if_pos hlt, if_neg (by omega : ¬ readIdx input < 0), hslot]
  dsimp only
  rw [if_neg (by omega : ¬ ((input.drop 4).length : Int) < user.min_size),
    hoff]
  rw [if_pos (by simp)]

/-- Concrete instantiation of claim_C3: one-slot refs array, disabled
event, 1-byte payload over a 1-byte minimum. -/
theorem claim_C3_witness :
    user_events_write_core
      (some [some { name := strL "a", fields := [], validators := [],
                    min_size := 1, refcnt := 2, enabled := false }])
      [0, 0, 0, 0, 7] ⟨true, []⟩ = (.ok 5, []) :=
  claim_C3 [some { name := strL "a", fields := [], validators := [],
                   min_size := 1, refcnt := 2, enabled := false }]
    [0, 0, 0, 0, 7] ⟨true, []⟩
    { name := strL "a", fields := [], validators := [],
      min_size := 1, refcnt := 2, enabled := false }
    (by decide) (by decide) (by decide) rfl (by decide) rfl

/-- C10: user_reg_get validates the caller-supplied descriptor before any
state changes: a non-zero flags field, an enable size other than 4 (or 8
on a 64-bit kernel), a misaligned enable address, or an enable bit past
enable_size * 8 - 1 each fail -EINVAL; a descriptor larger than a page
fails -E2BIG; an inaccessible enable address fails -EFAULT; and on any
user_reg_get failure user_events_ioctl_reg returns that error with the
registry, the file's reference array, and the caller's memory untouched. -/
theorem claim_C10 (env : IoctlEnv) (usize : Nat) (r : UserReg)
    (st : RegState) (refsF : List (List Char)) :
    (env.regGet.getUserOk = true → usize ≤ PAGE_SIZE → userRegEnd ≤ usize →
      env.regGet.copyRes = none →
      (r.flags ≠ 0 ∨
       ¬ (r.enable_size = 4 ∨ (env.regGet.bits64 ∧ r.enable_size = 8)) ∨
       r.enable_addr % r.enable_size ≠ 0 ∨
       r.enable_bit > r.enable_size * BITS_PER_BYTE - 1) →
      user_reg_get env.regGet usize r = .error (-EINVAL)) ∧
    (env.regGet.getUserOk = true → usize > PAGE_SIZE →
      user_reg_get env.regGet usize r = .error (-E2BIG)) ∧
    (env.regGet.getUserOk = true → usize ≤ PAGE_SIZE → userRegEnd ≤ usize →
      env.regGet.copyRes = none → r.flags = 0 →
      (r.enable_size = 4 ∨ (env.regGet.bits64 ∧ r.enable_size = 8)) →
      r.enable_addr % r.enable_size = 0 →
      r.enable_bit ≤ r.enable_size * BITS_PER_BYTE - 1 →
      env.regGet.accessOk = false →
      user_reg_get env.regGet usize r = .error (-EFAULT)) ∧
    (∀ e, user_reg_get env.regGet usize r = .error e →
      user_events_ioctl_reg env st refsF usize r = (e, st, refsF, false)) := by
  refine ⟨?_, ?_, ?_, ?_⟩
  · intro hget hle hge hcopy hviol
    unfold user_reg_get
    rw [if_neg (by simp [hget]), if_neg (by omega), if_neg (by omega), hcopy]
    by_cases c1 : r.flags ≠ 0
    · rw [if_pos c1]
    · rw [if_neg c1]
      by_cases c2 : ¬ (r.enable_size = 4 ∨ (env.regGet.bits64 ∧ r.enable_size = 8))
      · rw [if_pos c2]
      · rw [if_neg c2]
        by_cases c3 : r.enable_addr % r.enable_size ≠ 0
        · rw [if_pos c3]
        · rw [if_neg c3]
          have c4 : r.enable_bit > r.enable_size * BITS_PER_BYTE - 1 := by
            tauto
          rw [if_pos c4]
  · intro hget hgt
    unfold user_reg_get
    rw [if_neg (by simp [hget]), if_pos hgt]
  · intro hget hle hge hcopy hf hsz hal hbit hacc
    unfold user_reg_get
    rw [if_neg (by simp [hget]), if_neg (by omega), if_neg (by omega), hcopy,
      if_neg (by simpa using hf), if_neg (not_not_intro hsz),
      if_neg (by simpa using hal), if_neg (by omega),
      if_pos (by simp [hacc])]
  · intro e he
    unfold user_events_ioctl_reg
    rw [he]

/-- Concrete instantiation of claim_C10: a descriptor with non-zero
flags, an over-a-page size, an inaccessible address, and the whole ioctl
at the flags violation. -/
theorem claim_C10_witness :
    user_reg_get ⟨true, none, true, true⟩ 28 ⟨0, 4, 1, 0, 0, 0⟩ =
      .error (-EINVAL) ∧
    user_reg_get ⟨true, none, true, true⟩ 5000 ⟨0, 4, 0, 0, 0, 0⟩ =
      .error (-E2BIG) ∧
    user_reg_get ⟨true, none, false, true⟩ 28 ⟨31, 4, 0, 8, 0, 0⟩ =
      .error (-EFAULT) ∧
    user_events_ioctl_reg
      ⟨⟨true, none, true, true⟩, .ok (strL "e"), ⟨true, true, none⟩, true, none⟩
      initRegState [] 28 ⟨0, 4, 1, 0, 0, 0⟩ =
      (-EINVAL, initRegState, [], false) := by
  have h1 := claim_C10
    ⟨⟨true, none, true, true⟩, .ok (strL "e"), ⟨true, true, none⟩, true, none⟩
    28 ⟨0, 4, 1, 0, 0, 0⟩ initRegState []
  have h2 := claim_C10
    ⟨⟨true, none, true, true⟩, .ok (strL "e"), ⟨true, true, none⟩, true, none⟩
    5000 ⟨0, 4, 0, 0, 0, 0⟩ initRegState []
  have h3 := claim_C10
    ⟨⟨true, none, false, true⟩, .ok (strL "e"), ⟨true, true, none⟩, true, none⟩
    28 ⟨31, 4, 0, 8, 0, 0⟩ initRegState []
  have e1 := h1.1 rfl (by decide) (by decide) rfl (Or.inl (by decide))
  exact ⟨e1, h2.2.1 rfl (by decide),
    h3.2.2.1 rfl (by decide) (by decide) rfl rfl (Or.inl rfl) (by decide)
      (by decide) rfl,
    h1.2.2.2 (-EINVAL) e1⟩

end UserEvents
